import Mathlib

/-!
Verification of the agent orchestration core (tool registry, planner,
executor) of the minimal.ai repository.  Python code is shallowly embedded:
dynamic values become the inductive type `PyVal`, Python dicts become
association lists with first-binding-wins lookup, `async` external calls
(the LLM providers, the database) become oracle parameters, and exceptions
become `Except` / explicit outcome constructors.  All definitions are
executable so that theorems with hypotheses can be instantiated on concrete
inputs.
-/

/-- Python value model: the dynamic values that flow through tool arguments,
JSON plans and tool outputs.  Containers carry their elements; opaque
non-JSON objects do not occur in the modelled code paths. -/
inductive PyVal where
  | none
  | bool (b : Bool)
  | int (i : Int)
  | float (q : Rat)
  | str (s : String)
  | list (xs : List PyVal)
  | dict (fields : List (String × PyVal))
deriving Repr

/-- Dictionary lookup (Python `d.get(k)`), first binding wins. -/
def dictGet {α β : Type} [BEq α] (m : List (α × β)) (k : α) : Option β :=
  (m.find? (fun p => p.1 == k)).map (fun p => p.2)

/-- Dictionary lookup with default (Python `d.get(k, dflt)`). -/
def dictGetD {α β : Type} [BEq α] (m : List (α × β)) (k : α) (dflt : β) : β :=
  (dictGet m k).getD dflt

/-- Dictionary update `d[k] = v`: replaces the existing binding in place,
or appends a new one, exactly like Python dict insertion order. -/
def dictSet {α β : Type} [BEq α] (m : List (α × β)) (k : α) (v : β) : List (α × β) :=
  if m.any (fun p => p.1 == k) then
    m.map (fun p => if p.1 == k then (k, v) else p)
  else m ++ [(k, v)]

mutual
/-- Python `str(x)` on a `PyVal`; strings pass through unchanged, other
values are rendered (renderings of containers and floats approximate the
CPython formatting; no modelled code path inspects them). -/
def PyVal.pyStr : PyVal → String
  | .none => "None"
  | .bool true => "True"
  | .bool false => "False"
  | .int i => toString i
  | .float q => toString q
  | .str s => s
  | .list xs => "[" ++ PyVal.pyStrList xs ++ "]"
  | .dict fs => "\x7b" ++ PyVal.pyStrFields fs ++ "\x7d"

/-- Comma-joined rendering of list elements. -/
def PyVal.pyStrList : List PyVal → String
  | [] => ""
  | [x] => PyVal.pyStr x
  | x :: xs => PyVal.pyStr x ++ ", " ++ PyVal.pyStrList xs

/-- Comma-joined rendering of dict entries. -/
def PyVal.pyStrFields : List (String × PyVal) → String
  | [] => ""
  | [(k, v)] => k ++ ": " ++ PyVal.pyStr v
  | (k, v) :: fs => k ++ ": " ++ PyVal.pyStr v ++ ", " ++ PyVal.pyStrFields fs
end

/-- Argument mapping passed to a tool (`**kwargs`). -/
abbrev Args := List (String × PyVal)

/-- Result returned by a tool execution (`ToolResult` dataclass,
src/app/agent/tool_registry.py lines 25-33), with the dataclass defaults. -/
structure ToolResult where
  success : Bool
  output : Option PyVal := Option.none
  error : Option String := Option.none
  latency_ms : Nat := 0
  tokens_used : Nat := 0
  metadata : List (String × PyVal) := []
deriving Repr

/-- Outcome of running a tool body (`await tool.execute(**kwargs)`): it can
return a `ToolResult`, return any other value, or raise an exception with a
class name, message and traceback. -/
inductive ToolOutcome where
  | result (r : ToolResult)
  | value (v : PyVal)
  | exn (cls msg tb : String)

/-- A registered tool: its unique name and its execution body
(src/app/agent/tool_registry.py `Tool`). -/
structure Tool where
  name : String
  run : Args → ToolOutcome

/-- The tool registry: name-keyed table in registration order
(src/app/agent/tool_registry.py `ToolRegistry`). -/
structure ToolRegistry where
  tools : List (String × Tool)

/-- `ToolRegistry.list_names` (line 143-145). -/
def ToolRegistry.list_names (reg : ToolRegistry) : List String :=
  reg.tools.map (fun p => p.1)

/-- `self._tools.get(tool_name)` lookup. -/
def ToolRegistry.getTool (reg : ToolRegistry) (name : String) : Option Tool :=
  (reg.tools.find? (fun p => p.1 == name)).map (fun p => p.2)

/-- Python rendering of a list of strings inside an f-string,
`['a', 'b']`. -/
def pyStrListRepr (names : List String) : String :=
  "[" ++ String.intercalate ", " (names.map (fun n => "\x27" ++ n ++ "\x27")) ++ "]"

/-- `ToolRegistry.execute` (src/app/agent/tool_registry.py lines 151-177).
The elapsed wall-clock time of the tool call is an external input, passed as
the `elapsed` parameter.  The Lean function is total: every exception from
the tool body arrives as a `ToolOutcome.exn` and is converted to a failed
`ToolResult`, never propagated. -/
def ToolRegistry.execute (reg : ToolRegistry) (tool_name : String) (args : Args)
    (elapsed : Nat) : ToolResult :=
  match reg.getTool tool_name with
  | Option.none =>
      { success := false
        error := some ("Tool \x27" ++ tool_name ++ "\x27 not found. Available: " ++
          pyStrListRepr reg.list_names) }
  | Option.some tool =>
      match tool.run args with
      | .result r => { r with latency_ms := elapsed }
      | .value v => { success := true, output := some v, latency_ms := elapsed }
      | .exn cls msg tb =>
          { success := false
            error := some (cls ++ ": " ++ msg)
            latency_ms := elapsed
            metadata := [("traceback", PyVal.str tb)] }

/-- Python `s.startswith(pre)` on char lists (structural, so the kernel can
evaluate it on concrete strings). -/
def isPrefixList : List Char → List Char → Bool
  | [], _ => true
  | _ :: _, [] => false
  | p :: ps, c :: cs => p == c && isPrefixList ps cs

/-- Python `s.startswith(pre)`. -/
def pyStartsWith (s pre : String) : Bool :=
  isPrefixList pre.data s.data

/-- Python slice `s[:n]`. -/
def takeChars (n : Nat) (s : String) : String :=
  String.mk (s.data.take n)

/-- Output lookup `step_outputs[sid]` / `step_outputs.get(sid, d)`. -/
def lookupD (m : List (Int × String)) (k : Int) (d : String) : String :=
  dictGetD m k d

/-- Maximum of a list of ints, Python `max(keys)` (0 on the empty list,
which the modelled code never reaches). -/
def listMaxInt : List Int → Int
  | [] => 0
  | x :: xs => xs.foldl max x

/-- Python `sorted(keys, reverse=True)`. -/
def sortDescInt (l : List Int) : List Int :=
  l.insertionSort (fun a b => b ≤ a)

/-- Fixed message returned when there are no step outputs
(src/app/agent/executor.py line 263). -/
def genericNoSteps : String := "I couldn\x27t generate a response. Please try again."

/-- Fixed generic failure message returned when every step output is an
error marker (src/app/agent/executor.py line 274). -/
def genericAllError : String := "An error occurred while processing your request. Please try again."

/-- `AgentRunner._compile_response` (src/app/agent/executor.py lines
257-276), translated statement by statement: empty dict guard, lookup of
the highest step id, error-marker test by the `"[ERROR]"` prefix, and the
descending search for the first non-error output. -/
def compile_response (step_outputs : List (Int × String)) : String :=
  match step_outputs with
  | [] => genericNoSteps
  | _ :: _ =>
    let keys := step_outputs.map (fun p => p.1)
    let last_step_id := listMaxInt keys
    let last_output := lookupD step_outputs last_step_id ""
    if pyStartsWith last_output "[ERROR]" then
      match (sortDescInt keys).find?
          (fun sid => !(pyStartsWith (lookupD step_outputs sid "") "[ERROR]")) with
      | some sid => lookupD step_outputs sid ""
      | Option.none => genericAllError
    else last_output

/-- Modelled from the spec wording of response compilation: return the
output of the highest step id whose output is not an error marker; if every
output is an error marker return the fixed generic failure message; with no
steps at all return the fixed could-not-generate message.  Stated
independently of `compile_response` so the two can be compared. -/
def spec_compile_response (step_outputs : List (Int × String)) : String :=
  match step_outputs with
  | [] => genericNoSteps
  | _ :: _ =>
    match (sortDescInt (step_outputs.map (fun p => p.1))).find?
        (fun sid => !(pyStartsWith (lookupD step_outputs sid "") "[ERROR]")) with
    | some sid => lookupD step_outputs sid ""
    | Option.none => genericAllError

/-- Match a literal pattern at the head of a char list, returning the
remainder (building block of the regex-scan model). -/
def stripPre : List Char → List Char → Option (List Char)
  | [], cs => some cs
  | _ :: _, [] => Option.none
  | p :: ps, c :: cs => if p == c then stripPre ps cs else Option.none

/-- The literal head of the template pattern, the characters of
`\x7bstep_`. -/
def refHead : List Char := ['\x7b', 's', 't', 'e', 'p', '_']

/-- The literal tail of the template pattern, the characters of
`_output\x7d`. -/
def refTail : List Char := ['_', 'o', 'u', 't', 'p', 'u', 't', '\x7d']

/-- Python `int(digit_string)` on a list of decimal digit characters. -/
def digitsToNat (ds : List Char) : Nat :=
  ds.foldl (fun a c => a * 10 + (c.toNat - 48)) 0

/-- Try to match the regex `\x7bstep_(\d+)_output\x7d` at the head of the
char list; on success return the captured step number and the remainder
after the match.  The digit run is maximal, as with a greedy `\d+`. -/
def parseStepRef (cs : List Char) : Option (Nat × List Char) :=
  match stripPre refHead cs with
  | Option.none => Option.none
  | some rest =>
    let ds := rest.takeWhile Char.isDigit
    if ds.isEmpty then Option.none
    else
      match stripPre refTail (rest.dropWhile Char.isDigit) with
      | Option.none => Option.none
      | some rem => some (digitsToNat ds, rem)

theorem dropWhileLenLe (p : Char → Bool) : ∀ l : List Char,
    (l.dropWhile p).length ≤ l.length := by
  intro l
  induction l with
  | nil => simp
  | cons c cs ih =>
    simp only [List.dropWhile_cons]
    split
    · exact Nat.le_trans ih (by simp)
    · simp

theorem stripPre_length : ∀ (p cs r : List Char), stripPre p cs = some r →
    r.length + p.length = cs.length := by
  intro p
  induction p with
  | nil => intro cs r h; simp [stripPre] at h; simp [h]
  | cons x xs ih =>
    intro cs r h
    cases cs with
    | nil => simp [stripPre] at h
    | cons c cs =>
      simp only [stripPre] at h
      by_cases hx : x == c
      · rw [if_pos hx] at h
        have := ih cs r h
        simp [List.length_cons]
        omega
      · rw [if_neg hx] at h
        exact absurd h (by simp)

theorem parseStepRef_length {cs : List Char} {n : Nat} {rem : List Char}
    (h : parseStepRef cs = some (n, rem)) : rem.length < cs.length := by
  unfold parseStepRef at h
  cases hh : stripPre refHead cs with
  | none => rw [hh] at h; exact absurd h (by simp)
  | some rest =>
    rw [hh] at h
    have hrest := stripPre_length _ _ _ hh
    simp only at h
    by_cases hd : (rest.takeWhile Char.isDigit).isEmpty
    · rw [if_pos hd] at h; exact absurd h (by simp)
    · rw [if_neg hd] at h
      cases ht : stripPre refTail (rest.dropWhile Char.isDigit) with
      | none => rw [ht] at h; exact absurd h (by simp)
      | some rem2 =>
        rw [ht] at h
        have htl := stripPre_length _ _ _ ht
        have hdw : (rest.dropWhile Char.isDigit).length ≤ rest.length :=
          dropWhileLenLe Char.isDigit rest
        have : rem = rem2 := by
          have := h
          simp at this
          exact this.2.symm
        subst this
        have h6 : refHead.length = 6 := by decide
        have h8 : refTail.length = 8 := by decide
        omega

/-- The replacement text for a matched reference to step `n`:
`step_outputs.get(step_id, f"[step N output unavailable]")`
(src/app/agent/executor.py lines 248-250). -/
def refReplacement (step_outputs : List (Int × String)) (n : Nat) : String :=
  lookupD step_outputs (Int.ofNat n) ("[step " ++ toString n ++ " output unavailable]")

/-- The left-to-right, non-overlapping scan of
`re.sub(r"\x7bstep_(\d+)_output\x7d", replacer, value)`
(src/app/agent/executor.py line 252): at each position, either a full
pattern match is consumed and replaced (the replacement text is not
rescanned), or one character is copied. -/
def substChars (step_outputs : List (Int × String)) : List Char → List Char
  | [] => []
  | c :: rest =>
    match h : parseStepRef (c :: rest) with
    | some nr => (refReplacement step_outputs nr.1).data ++ substChars step_outputs nr.2
    | Option.none => c :: substChars step_outputs rest
termination_by cs => cs.length
decreasing_by
  · exact parseStepRef_length h
  · simp

/-- Template substitution on one string-valued argument. -/
def resolve_template (step_outputs : List (Int × String)) (s : String) : String :=
  String.mk (substChars step_outputs s.data)

/-- `AgentRunner._resolve_args` (src/app/agent/executor.py lines 240-255):
string values get template substitution, all other values pass through
unchanged. -/
def _resolve_args (args : Args) (step_outputs : List (Int × String)) : Args :=
  args.map (fun kv =>
    match kv.2 with
    | PyVal.str s => (kv.1, PyVal.str (resolve_template step_outputs s))
    | v => (kv.1, v))

/-- Task complexity labels (`TaskComplexity` enum,
src/app/orchestrator/strategies.py lines 21-26). -/
inductive TaskComplexity where
  | simple
  | moderate
  | complex
  | image
deriving DecidableEq, Repr

/-- The string value of each enum member. -/
def TaskComplexity.val : TaskComplexity → String
  | .simple => "simple"
  | .moderate => "moderate"
  | .complex => "complex"
  | .image => "image"

/-- Python `c.lower()` per character (the keyword lists are ASCII, where
`Char.toLower` and Python agree). -/
def pyLower (s : String) : String :=
  String.mk (s.data.map Char.toLower)

/-- Whitespace characters recognised by Python `str.split()` with no
arguments. -/
def pySpace (c : Char) : Bool :=
  c == ' ' || c == '\t' || c == '\n' || c == '\x0d' || c == '\x0b' || c == '\x0c'

/-- Split on whitespace runs, dropping empty fields, as Python
`s.split()` does. -/
def pySplitWsAux : List Char → List Char → List (List Char)
  | [], acc => if acc.isEmpty then [] else [acc.reverse]
  | c :: cs, acc =>
    if pySpace c then
      if acc.isEmpty then pySplitWsAux cs [] else acc.reverse :: pySplitWsAux cs []
    else pySplitWsAux cs (c :: acc)

/-- Python `len(s.split())`. -/
def pyWordCount (s : String) : Nat :=
  (pySplitWsAux s.data []).length

/-- Contiguous sublist test: does `n` occur inside the second list? -/
def isInfixList (n : List Char) : List Char → Bool
  | [] => n.isEmpty
  | c :: cs => isPrefixList n (c :: cs) || isInfixList n cs

/-- Substring containment, Python `keyword in prompt_lower`. -/
def containsSub (hay needle : String) : Bool :=
  isInfixList needle.data hay.data

/-- Python `any(keyword in prompt_lower for keyword in kws)`. -/
def containsAnyKw (hay : String) (kws : List String) : Bool :=
  kws.any (fun k => containsSub hay k)

/-- Image understanding indicators (src/app/orchestrator/strategies.py
lines 170-174). -/
def image_keywords : List String :=
  ["image", "picture", "photo", "screenshot", "diagram",
   "what is in this", "describe this image", "analyze this photo",
   "look at this", "what do you see"]

/-- Complex task indicators (src/app/orchestrator/strategies.py
lines 177-184). -/
def complex_keywords : List String :=
  ["analyze", "critique", "plan", "design", "create a system",
   "build", "implement", "step by step", "how would you",
   "develop", "architecture", "break down", "organize",
   "pros and cons", "trade-offs", "compare and contrast",
   "write code", "debug", "refactor", "explain the reasoning",
   "philosophy", "ethical", "strategy", "think through"]

/-- Moderate task indicators (src/app/orchestrator/strategies.py
lines 187-190). -/
def moderate_keywords : List String :=
  ["explain", "describe", "summarize", "write", "generate",
   "list", "compare", "what are", "how to", "create"]

/-- `classify_task_complexity_keywords` (src/app/orchestrator/strategies.py
lines 162-201): keyword/length heuristic applied in priority order
image, complex, moderate, simple. -/
def classify_task_complexity_keywords (user_prompt : String) : TaskComplexity :=
  let prompt_lower := pyLower user_prompt
  let word_count := pyWordCount user_prompt
  if containsAnyKw prompt_lower image_keywords then
    TaskComplexity.image
  else if containsAnyKw prompt_lower complex_keywords || decide (word_count > 50) then
    TaskComplexity.complex
  else if containsAnyKw prompt_lower moderate_keywords || decide (word_count > 20) then
    TaskComplexity.moderate
  else
    TaskComplexity.simple

/-- One planned step (`PlanStep` dataclass, src/app/agent/planner.py
lines 16-23).  Step ids are Python ints. -/
structure PlanStep where
  step_id : Int
  tool_name : String
  description : String := ""
  args : Args := []
  depends_on : List Int := []
deriving Repr

/-- A complete execution plan (`ExecutionPlan` dataclass,
src/app/agent/planner.py lines 26-33). -/
structure ExecutionPlan where
  goal : String
  complexity : String
  steps : List PlanStep := []
  reasoning : String := ""
  metadata : List (String × PyVal) := []
deriving Repr

/-- Result dict of the external planning generation call
`gemini.generate(...)`: text plus token/latency telemetry. -/
structure GenResult where
  text : String
  tokens_used : Nat := 0
  latency_ms : Nat := 0

/-- `Planner._create_simple_plan` (src/app/agent/planner.py lines
113-132): the single-step fast path, general-purpose generation tool, fast
provider, fixed low temperature. -/
def _create_simple_plan (user_prompt : String) (complexity : String) : ExecutionPlan :=
  { goal := user_prompt
    complexity := complexity
    reasoning := "Simple query — direct LLM response, no planning needed."
    steps := [
      { step_id := 0
        tool_name := "llm_generate"
        description := "Generate direct response"
        args := [("prompt", PyVal.str user_prompt),
                 ("provider", PyVal.str "groq"),
                 ("temperature", PyVal.float (2/5))]
        depends_on := [] }] }

/-- `Planner._create_fallback_plan` (src/app/agent/planner.py lines
208-228): the single-step fallback used when AI planning fails, on the
higher-capability provider/model at moderate temperature. -/
def _create_fallback_plan (user_prompt : String) (complexity : String) : ExecutionPlan :=
  { goal := user_prompt
    complexity := complexity
    reasoning := "AI planning failed — falling back to direct LLM response."
    steps := [
      { step_id := 0
        tool_name := "llm_generate"
        description := "Generate direct response (fallback)"
        args := [("prompt", PyVal.str user_prompt),
                 ("provider", PyVal.str "gemini"),
                 ("model", PyVal.str "gemini-2.5-flash"),
                 ("temperature", PyVal.float (1/2))]
        depends_on := [] }] }

/-- JSON insignificant whitespace. -/
def jsonWs (c : Char) : Bool :=
  c == ' ' || c == '\t' || c == '\n' || c == '\x0d'

/-- Skip JSON whitespace. -/
def skipWs (cs : List Char) : List Char :=
  cs.dropWhile jsonWs

/-- Hex digit value. -/
def hexVal (c : Char) : Option Nat :=
  if c.isDigit then some (c.toNat - 48)
  else if 'a' ≤ c ∧ c ≤ 'f' then some (c.toNat - 87)
  else if 'A' ≤ c ∧ c ≤ 'F' then some (c.toNat - 55)
  else Option.none

/-- Parse the body of a JSON string (after the opening quote), handling the
standard escapes; returns the decoded characters and the remainder after
the closing quote. -/
def parseJsonStringAux (acc : List Char) : List Char → Option (List Char × List Char)
  | [] => Option.none
  | c :: cs =>
    if c == '"' then some (acc.reverse, cs)
    else if c == '\\' then
      match cs with
      | [] => Option.none
      | e :: cs2 =>
        if e == '"' then parseJsonStringAux ('"' :: acc) cs2
        else if e == '\\' then parseJsonStringAux ('\\' :: acc) cs2
        else if e == '/' then parseJsonStringAux ('/' :: acc) cs2
        else if e == 'n' then parseJsonStringAux ('\n' :: acc) cs2
        else if e == 't' then parseJsonStringAux ('\t' :: acc) cs2
        else if e == 'r' then parseJsonStringAux ('\x0d' :: acc) cs2
        else if e == 'b' then parseJsonStringAux ('\x08' :: acc) cs2
        else if e == 'f' then parseJsonStringAux ('\x0c' :: acc) cs2
        else if e == 'u' then
          match cs2 with
          | h1 :: h2 :: h3 :: h4 :: cs3 =>
            match hexVal h1, hexVal h2, hexVal h3, hexVal h4 with
            | some a, some b, some c3, some d =>
              parseJsonStringAux (Char.ofNat (((a * 16 + b) * 16 + c3) * 16 + d) :: acc) cs3
            | _, _, _, _ => Option.none
          | _ => Option.none
        else Option.none
    else parseJsonStringAux (c :: acc) cs

/-- Parse a JSON number (sign, integer part, optional fraction, optional
exponent).  Integer-shaped literals become Python ints, anything with a
fraction or exponent becomes a float (exact rational value).  The grammar
is slightly more lenient than CPython (leading zeros are accepted). -/
def parseJsonNumber (cs : List Char) : Option (PyVal × List Char) :=
  let signAndRest : Bool × List Char :=
    match cs with
    | c :: r => if c == '-' then (true, r) else (false, cs)
    | [] => (false, cs)
  let neg := signAndRest.1
  let cs1 := signAndRest.2
  let ip := cs1.takeWhile Char.isDigit
  let r1 := cs1.dropWhile Char.isDigit
  if ip.isEmpty then Option.none
  else
    let ipv : Nat := digitsToNat ip
    let fracStep : Option (Bool × Rat × List Char) :=
      match r1 with
      | '.' :: rf =>
        let fp := rf.takeWhile Char.isDigit
        if fp.isEmpty then Option.none
        else some (true, (ipv : Rat) + (digitsToNat fp : Rat) / ((10 : Rat) ^ fp.length),
          rf.dropWhile Char.isDigit)
      | _ => some (false, (ipv : Rat), r1)
    match fracStep with
    | Option.none => Option.none
    | some (isFloat, base, r2) =>
      let expStep : Option (Bool × Rat × List Char) :=
        match r2 with
        | c :: re =>
          if c == 'e' || c == 'E' then
            let sgnAndRest : Int × List Char :=
              match re with
              | s :: re2 =>
                if s == '+' then (1, re2) else if s == '-' then (-1, re2) else (1, re)
              | [] => (1, re)
            let ds := sgnAndRest.2.takeWhile Char.isDigit
            if ds.isEmpty then Option.none
            else some (true, base * (10 : Rat) ^ (sgnAndRest.1 * Int.ofNat (digitsToNat ds)),
              sgnAndRest.2.dropWhile Char.isDigit)
          else some (false, base, r2)
        | [] => some (false, base, r2)
      match expStep with
      | Option.none => Option.none
      | some (hasExp, q, r3) =>
        let q := if neg then -q else q
        if isFloat || hasExp then some (PyVal.float q, r3)
        else some (PyVal.int (if neg then -(ipv : Int) else (ipv : Int)), r3)

mutual
/-- Recursive-descent JSON value parser (model of the grammar accepted by
Python `json.loads`), with a fuel parameter bounding the nesting depth. -/
def parseJsonVal : Nat → List Char → Option (PyVal × List Char)
  | 0, _ => Option.none
  | fuel + 1, cs =>
    match skipWs cs with
    | [] => Option.none
    | c :: rest =>
      if c == '\x7b' then
        match skipWs rest with
        | '\x7d' :: r => some (PyVal.dict [], r)
        | _ => (parseJsonObj fuel (skipWs rest)).map (fun p => (PyVal.dict p.1, p.2))
      else if c == '[' then
        match skipWs rest with
        | ']' :: r => some (PyVal.list [], r)
        | _ => (parseJsonArr fuel (skipWs rest)).map (fun p => (PyVal.list p.1, p.2))
      else if c == '"' then
        (parseJsonStringAux [] rest).map (fun p => (PyVal.str (String.mk p.1), p.2))
      else if c == 't' then
        (stripPre ['r', 'u', 'e'] rest).map (fun r => (PyVal.bool true, r))
      else if c == 'f' then
        (stripPre ['a', 'l', 's', 'e'] rest).map (fun r => (PyVal.bool false, r))
      else if c == 'n' then
        (stripPre ['u', 'l', 'l'] rest).map (fun r => (PyVal.none, r))
      else parseJsonNumber (c :: rest)

/-- Parse the members of a JSON object, positioned at a key. -/
def parseJsonObj : Nat → List Char → Option (List (String × PyVal) × List Char)
  | 0, _ => Option.none
  | fuel + 1, cs =>
    match skipWs cs with
    | '"' :: rest =>
      match parseJsonStringAux [] rest with
      | Option.none => Option.none
      | some (k, r1) =>
        match skipWs r1 with
        | ':' :: r2 =>
          match parseJsonVal fuel r2 with
          | Option.none => Option.none
          | some (v, r3) =>
            match skipWs r3 with
            | ',' :: r4 =>
              (parseJsonObj fuel r4).map (fun p => ((String.mk k, v) :: p.1, p.2))
            | '\x7d' :: r4 => some ([(String.mk k, v)], r4)
            | _ => Option.none
        | _ => Option.none
    | _ => Option.none

/-- Parse the items of a JSON array, positioned at an element. -/
def parseJsonArr : Nat → List Char → Option (List PyVal × List Char)
  | 0, _ => Option.none
  | fuel + 1, cs =>
    match parseJsonVal fuel cs with
    | Option.none => Option.none
    | some (v, r1) =>
      match skipWs r1 with
      | ',' :: r2 => (parseJsonArr fuel r2).map (fun p => (v :: p.1, p.2))
      | ']' :: r2 => some ([v], r2)
      | _ => Option.none
end

/-- Model of Python `json.loads`: parse one JSON value and require only
whitespace after it.  (Python resolves duplicate object keys last-wins;
this model keeps all pairs and later lookups take the first — the modelled
plans never rely on duplicate keys.) -/
def json_loads (s : String) : Except String PyVal :=
  match parseJsonVal (s.length + 1) s.data with
  | Option.none => Except.error "Expecting value"
  | some (v, rest) =>
    if (skipWs rest).isEmpty then Except.ok v else Except.error "Extra data"

/-- Python `s.strip()`. -/
def pyStrip (s : String) : String :=
  String.mk (((s.data.dropWhile pySpace).reverse.dropWhile pySpace).reverse)

/-- Index of the first occurrence of a character, Python `s.find(c)`. -/
def firstIdxOf (c : Char) : List Char → Option Nat
  | [] => Option.none
  | x :: xs => if x == c then some 0 else (firstIdxOf c xs).map (fun n => n + 1)

/-- Python `s.rfind(c) + 1` as a Nat (0 when the character is absent,
matching `-1 + 1`). -/
def rfindEnd (ds : List Char) (c : Char) : Nat :=
  match firstIdxOf c ds.reverse with
  | Option.none => 0
  | some k => ds.length - k

/-- `Planner._parse_plan_json` (src/app/agent/planner.py lines 247-266):
strip, attempt a direct parse, otherwise attempt the substring from the
first opening brace to the last closing brace, otherwise raise
(modelled as `Except.error`). -/
def _parse_plan_json (text : String) : Except String PyVal :=
  let t := pyStrip text
  match json_loads t with
  | Except.ok v => Except.ok v
  | Except.error _ =>
    let ds := t.data
    let fail : Except String PyVal :=
      Except.error ("Could not parse plan JSON from LLM response: " ++ takeChars 200 t)
    match firstIdxOf '\x7b' ds with
    | Option.none => fail
    | some js =>
      let je := rfindEnd ds '\x7d'
      if js < je then
        match json_loads (String.mk ((ds.drop js).take (je - js))) with
        | Except.ok v => Except.ok v
        | Except.error _ => fail
      else fail

/-- Read an optional string field with a default; a value of another type
is treated as a decode failure (the Python dataclass would carry the
dynamic value instead — no modelled code path produces one). -/
def getStrField (f : List (String × PyVal)) (k : String) (dflt : String) :
    Except String String :=
  match dictGet f k with
  | Option.none => Except.ok dflt
  | some (PyVal.str s) => Except.ok s
  | some _ => Except.error ("field " ++ k ++ " is not a string")

/-- Decode a JSON list of ints. -/
def decodeIntList : PyVal → Option (List Int)
  | PyVal.list xs => xs.mapM (fun x => match x with
      | PyVal.int i => some i
      | _ => Option.none)
  | _ => Option.none

/-- Decode one step dict (the body of the comprehension in
`ExecutionPlan.from_dict`, src/app/agent/planner.py lines 55-64):
`step_id` and `tool_name` are mandatory (KeyError models as error),
`description`, `args`, `depends_on` default to empty. -/
def PlanStep.from_dict (s : PyVal) : Except String PlanStep :=
  match s with
  | PyVal.dict f =>
    match dictGet f "step_id", dictGet f "tool_name" with
    | some (PyVal.int i), some (PyVal.str tn) => do
      let d ← getStrField f "description" ""
      let a ← (match dictGet f "args" with
        | Option.none => Except.ok ([] : Args)
        | some (PyVal.dict kv) => Except.ok kv
        | some _ => Except.error "args is not a dict")
      let dep ← (match dictGet f "depends_on" with
        | Option.none => Except.ok ([] : List Int)
        | some v => match decodeIntList v with
          | some l => Except.ok l
          | Option.none => Except.error "depends_on is not a list of ints")
      Except.ok { step_id := i, tool_name := tn, description := d, args := a, depends_on := dep }
    | _, _ => Except.error "missing or ill-typed step_id or tool_name"
  | _ => Except.error "step is not a dict"

/-- `ExecutionPlan.from_dict` (src/app/agent/planner.py lines 53-71).
Everything defaults when absent; `steps` defaults to the empty list. -/
def ExecutionPlan.from_dict (data : PyVal) : Except String ExecutionPlan :=
  match data with
  | PyVal.dict f => do
    let stepsJson ← (match dictGet f "steps" with
      | Option.none => Except.ok ([] : List PyVal)
      | some (PyVal.list xs) => Except.ok xs
      | some _ => Except.error "steps is not a list")
    let steps ← stepsJson.mapM PlanStep.from_dict
    let goal ← getStrField f "goal" ""
    let complexity ← getStrField f "complexity" "simple"
    let reasoning ← getStrField f "reasoning" ""
    let metadata ← (match dictGet f "metadata" with
      | Option.none => Except.ok ([] : List (String × PyVal))
      | some (PyVal.dict kv) => Except.ok kv
      | some _ => Except.error "metadata is not a dict")
    Except.ok { goal := goal, complexity := complexity, steps := steps, reasoning := reasoning, metadata := metadata }
  | _ => Except.error "plan data is not a dict"

/-- `Planner._create_ai_plan` (src/app/agent/planner.py lines 134-206).
The external `gemini.generate` call is an oracle parameter `gen`: its
`Except.error` case models the call raising.  The tool schemas and memory
context shape only the prompt string sent to that call, so they are
absorbed into the oracle.  Parsing and decoding happen inside the `try`,
so any of generate / parse / decode failing yields the fallback plan. -/
def _create_ai_plan (gen : Except String GenResult)
    (user_prompt complexity : String) : ExecutionPlan :=
  match gen with
  | Except.error _ => _create_fallback_plan user_prompt complexity
  | Except.ok result =>
    match (do
        let d ← _parse_plan_json result.text
        ExecutionPlan.from_dict d) with
    | Except.error _ => _create_fallback_plan user_prompt complexity
    | Except.ok plan =>
      { plan with metadata := dictSet (dictSet plan.metadata "planning_tokens" (PyVal.int (Int.ofNat result.tokens_used))) "planning_latency_ms" (PyVal.int (Int.ofNat result.latency_ms)) }

/-- `Planner.create_plan` (src/app/agent/planner.py lines 88-111): classify
by the keyword heuristic; `simple` short-circuits to the single-step plan
with no planning call, everything else delegates to `_create_ai_plan`. -/
def create_plan (gen : Except String GenResult) (user_prompt : String) : ExecutionPlan :=
  let complexity := classify_task_complexity_keywords user_prompt
  if complexity = TaskComplexity.simple then
    _create_simple_plan user_prompt complexity.val
  else
    _create_ai_plan gen user_prompt complexity.val

/-- One per-step record appended to `step_results`
(src/app/agent/executor.py lines 171-180). -/
structure StepRecord where
  step_id : Int
  tool_name : String
  description : String
  success : Bool
  output : String
  error : Option String
  latency_ms : Nat
  tokens_used : Nat
deriving Repr

/-- Per-request mutable state of the execution loop: the global count of
registry invocations so far (indexing the oracle), the step-output dict,
the token accumulator, and the step records. -/
structure RunState where
  calls : Nat
  step_outputs : List (Int × String)
  total_tokens : Nat
  step_results : List StepRecord

/-- The behaviour of `registry.execute` across a run: the result of the
k-th registry invocation on a tool name and resolved arguments.  Results
depend on the invocation index because tools call external, possibly
stateful services. -/
abbrev ExecOracle := Nat → String → Args → ToolResult

/-- `AgentRunner._execute_with_retry` (src/app/agent/executor.py lines
228-238): call the registry once; if the result is unsuccessful and the
retry policy flag is on, call it exactly once more with the same arguments
and keep the second result.  Returns the kept result and the updated
invocation count. -/
def _execute_with_retry (oracle : ExecOracle) (retry_enabled : Bool)
    (calls : Nat) (tool_name : String) (args : Args) : ToolResult × Nat :=
  let result := oracle calls tool_name args
  if !result.success && retry_enabled then
    (oracle (calls + 1) tool_name args, calls + 2)
  else
    (result, calls + 1)

/-- Truthiness of `result.error` (Python `elif result.error:`). -/
def truthyErr : Option String → Bool
  | Option.none => false
  | some s => !(s == "")

/-- Output-text extraction (src/app/agent/executor.py lines 146-150):
stringify the output on success, synthesize the `[ERROR] ` marker on
failure with a truthy error message, otherwise leave the empty string. -/
def stepOutputText (result : ToolResult) : String :=
  if result.success && result.output.isSome then
    PyVal.pyStr (result.output.getD (PyVal.str ""))
  else if truthyErr result.error then
    "[ERROR] " ++ result.error.getD ""
  else ""

/-- One iteration of the step loop (src/app/agent/executor.py lines
136-183): resolve args against prior outputs, execute with retry, record
the output text under the step id, accumulate tokens, append the step
record (API-facing output capped at 2000 characters).  Persistence and
model-name tracking are external side effects and are not modelled. -/
def runStep (oracle : ExecOracle) (retry_enabled : Bool)
    (st : RunState) (step : PlanStep) : RunState :=
  let resolved_args := _resolve_args step.args st.step_outputs
  let rp := _execute_with_retry oracle retry_enabled st.calls step.tool_name resolved_args
  let result := rp.1
  let output_text := stepOutputText result
  { calls := rp.2
    step_outputs := dictSet st.step_outputs step.step_id output_text
    total_tokens := st.total_tokens + result.tokens_used
    step_results := st.step_results ++ [{
      step_id := step.step_id
      tool_name := step.tool_name
      description := step.description
      success := result.success
      output := takeChars 2000 output_text
      error := result.error
      latency_ms := result.latency_ms
      tokens_used := result.tokens_used }] }

/-- The full step loop in list order. -/
def runSteps (oracle : ExecOracle) (retry_enabled : Bool)
    (steps : List PlanStep) (st : RunState) : RunState :=
  steps.foldl (runStep oracle retry_enabled) st

/-- The externally visible outcome of a run (the fields of `AgentResult`
that the modelled loop computes). -/
structure AgentRunResult where
  response : String
  total_tokens : Nat
  step_results : List StepRecord
  step_outputs : List (Int × String)

/-- Python `plan.metadata.get("planning_tokens", 0)`
(src/app/agent/executor.py line 133); the planner always stores a
non-negative int here. -/
def planningTokens (plan : ExecutionPlan) : Nat :=
  match dictGet plan.metadata "planning_tokens" with
  | some (PyVal.int i) => i.toNat
  | _ => 0

/-- `AgentRunner.run` (src/app/agent/executor.py lines 72-226), from the
point where the plan is in hand: cap the step count, run every step in
list order, and compile the final response.  Memory, persistence and
latency bookkeeping are external effects outside the model. -/
def AgentRunner.run (oracle : ExecOracle) (retry_enabled : Bool)
    (max_steps : Nat) (plan : ExecutionPlan) : AgentRunResult :=
  let steps := plan.steps.take max_steps
  let final := runSteps oracle retry_enabled steps
    { calls := 0, step_outputs := [], total_tokens := planningTokens plan, step_results := [] }
  { response := compile_response final.step_outputs
    total_tokens := final.total_tokens
    step_results := final.step_results
    step_outputs := final.step_outputs }

/-- Decimal digit character for a value below ten (values ten and above
never arise, the catch-all keeps the function total). -/
def digitC : Nat → Char
  | 0 => '0'
  | 1 => '1'
  | 2 => '2'
  | 3 => '3'
  | 4 => '4'
  | 5 => '5'
  | 6 => '6'
  | 7 => '7'
  | 8 => '8'
  | _ => '9'

/-- Canonical decimal digits of a natural number (no leading zeros, no
sign), the digit string `str(N)` that appears inside a well-formed
template reference. -/
def natDigits (n : Nat) : List Char :=
  if n < 10 then [digitC n]
  else natDigits (n / 10) ++ [digitC (n % 10)]
termination_by n
decreasing_by
  exact Nat.div_lt_self (by omega) (by omega)

/-- Template abstract syntax: a string assembled from literal chunks and
references to step outputs.  `ref n` renders as the exact pattern
`\x7bstep_N_output\x7d` with `N` in canonical decimal. -/
inductive Tpl where
  | lit (s : String)
  | ref (n : Nat)

/-- A literal chunk is well formed when it contains no opening brace (so
it cannot start a reference pattern). -/
def litOkB : Tpl → Bool
  | Tpl.lit s => s.data.all (fun c => !(c == '\x7b'))
  | Tpl.ref _ => true

/-- Characters of the rendered template. -/
def Tpl.renderChars : List Tpl → List Char
  | [] => []
  | Tpl.lit s :: ts => s.data ++ Tpl.renderChars ts
  | Tpl.ref n :: ts => refHead ++ (natDigits n ++ (refTail ++ Tpl.renderChars ts))

/-- The rendered template string. -/
def Tpl.render (ts : List Tpl) : String :=
  String.mk (Tpl.renderChars ts)

/-- Modelled from the spec wording of argument resolution: every reference
to step `n` is replaced by the recorded output text of step `n`, or by the
visible unavailability placeholder when step `n` has no recorded output;
literal chunks pass through verbatim. -/
def Tpl.expandChars (step_outputs : List (Int × String)) : List Tpl → List Char
  | [] => []
  | Tpl.lit s :: ts => s.data ++ Tpl.expandChars step_outputs ts
  | Tpl.ref n :: ts =>
    (match dictGet step_outputs (Int.ofNat n) with
      | some t => t
      | Option.none => "[step " ++ toString n ++ " output unavailable]").data ++
      Tpl.expandChars step_outputs ts

/-- The expected expansion of a template. -/
def Tpl.expand (step_outputs : List (Int × String)) (ts : List Tpl) : String :=
  String.mk (Tpl.expandChars step_outputs ts)

/-- Boolean view of an `Except` failure (a modelled raise). -/
def isErr {ε α : Type} : Except ε α → Bool
  | Except.error _ => true
  | Except.ok _ => false

instance : IsTotal Int (fun a b : Int => b ≤ a) :=
  ⟨fun a b => le_total b a⟩

instance : IsTrans Int (fun a b : Int => b ≤ a) :=
  ⟨fun _ _ _ hab hbc => le_trans hbc hab⟩

/-- Example tool that returns a plain (non-ToolResult) value. -/
def toolOkEx : Tool :=
  ⟨"t_ok", fun _ => ToolOutcome.value (PyVal.str "hi")⟩

/-- Example tool whose body raises. -/
def toolExnEx : Tool :=
  ⟨"t_exn", fun _ => ToolOutcome.exn "ValueError" "bad input" "Traceback (most recent call last)"⟩

/-- Example registry holding the two example tools. -/
def regEx : ToolRegistry :=
  ⟨[("t_ok", toolOkEx), ("t_exn", toolExnEx)]⟩

/-- C1: `ToolRegistry.execute` never propagates an exception (it is a total
function into `ToolResult`): an unregistered name yields a failed result
whose error message carries the rendered list of registered tool names; a
tool body that raises yields a failed result whose error message is the
exception class name and message with the traceback stored in the result
metadata; a non-ToolResult return value is wrapped into a successful
result; a returned ToolResult is passed through with only its latency
filled in. -/
theorem toolRegistry_execute_fault_isolation (reg : ToolRegistry) (tool_name : String)
    (args : Args) (elapsed : Nat) :
    (reg.getTool tool_name = Option.none →
      (reg.execute tool_name args elapsed).success = false ∧
      (reg.execute tool_name args elapsed).error =
        some ("Tool \x27" ++ tool_name ++ "\x27 not found. Available: " ++
          pyStrListRepr reg.list_names)) ∧
    (∀ t, reg.getTool tool_name = some t →
      (∀ cls msg tb, t.run args = ToolOutcome.exn cls msg tb →
        (reg.execute tool_name args elapsed).success = false ∧
        (reg.execute tool_name args elapsed).error = some (cls ++ ": " ++ msg) ∧
        (reg.execute tool_name args elapsed).metadata = [("traceback", PyVal.str tb)]) ∧
      (∀ v, t.run args = ToolOutcome.value v →
        (reg.execute tool_name args elapsed).success = true ∧
        (reg.execute tool_name args elapsed).output = some v) ∧
      (∀ r, t.run args = ToolOutcome.result r →
        reg.execute tool_name args elapsed = { r with latency_ms := elapsed })) := by
  constructor
  · intro h
    constructor <;> simp [ToolRegistry.execute, h]
  · intro t ht
    refine ⟨?_, ?_, ?_⟩
    · intro cls msg tb hr
      refine ⟨?_, ?_, ?_⟩ <;> simp [ToolRegistry.execute, ht, hr]
    · intro v hr
      constructor <;> simp [ToolRegistry.execute, ht, hr]
    · intro r hr
      simp [ToolRegistry.execute, ht, hr]

/-- Witness for C1 at the concrete example registry: the unknown-name,
raising-tool and plain-value cases. -/
theorem toolRegistry_execute_fault_isolation_witness :
    (regEx.getTool "missing" = Option.none) ∧
    (regEx.execute "missing" [] 3).success = false ∧
    (regEx.execute "missing" [] 3).error =
      some ("Tool \x27" ++ "missing" ++ "\x27 not found. Available: " ++
        pyStrListRepr regEx.list_names) ∧
    (regEx.getTool "t_exn" = some toolExnEx) ∧
    (regEx.execute "t_exn" [] 3).success = false ∧
    (regEx.execute "t_exn" [] 3).error = some ("ValueError" ++ ": " ++ "bad input") ∧
    (regEx.execute "t_exn" [] 3).metadata =
      [("traceback", PyVal.str "Traceback (most recent call last)")] ∧
    (regEx.execute "t_ok" [] 3).success = true ∧
    (regEx.execute "t_ok" [] 3).output = some (PyVal.str "hi") := by
  have hmiss := (toolRegistry_execute_fault_isolation regEx "missing" [] 3).1 (by rfl)
  have hexn := ((toolRegistry_execute_fault_isolation regEx "t_exn" [] 3).2 toolExnEx
    (by rfl)).1 "ValueError" "bad input" "Traceback (most recent call last)" (by rfl)
  have hok := ((toolRegistry_execute_fault_isolation regEx "t_ok" [] 3).2 toolOkEx
    (by rfl)).2.1 (PyVal.str "hi") (by rfl)
  exact ⟨by rfl, hmiss.1, hmiss.2, by rfl, hexn.1, hexn.2.1, hexn.2.2, hok.1, hok.2⟩

/-- C6: the keyword heuristic applies its rules in priority order — image
phrases first, then complex phrases or more than 50 words, then moderate
phrases or more than 20 words, else simple.  Each label is characterised
exactly by its rule plus the failure of every higher-priority rule. -/
theorem classify_priority_order (p : String) :
    (classify_task_complexity_keywords p = TaskComplexity.image ↔
      containsAnyKw (pyLower p) image_keywords = true) ∧
    (classify_task_complexity_keywords p = TaskComplexity.complex ↔
      (containsAnyKw (pyLower p) image_keywords = false ∧
        (containsAnyKw (pyLower p) complex_keywords = true ∨ pyWordCount p > 50))) ∧
    (classify_task_complexity_keywords p = TaskComplexity.moderate ↔
      (containsAnyKw (pyLower p) image_keywords = false ∧
        containsAnyKw (pyLower p) complex_keywords = false ∧ pyWordCount p ≤ 50 ∧
        (containsAnyKw (pyLower p) moderate_keywords = true ∨ pyWordCount p > 20))) ∧
    (classify_task_complexity_keywords p = TaskComplexity.simple ↔
      (containsAnyKw (pyLower p) image_keywords = false ∧
        containsAnyKw (pyLower p) complex_keywords = false ∧
        containsAnyKw (pyLower p) moderate_keywords = false ∧ pyWordCount p ≤ 20)) := by
  unfold classify_task_complexity_keywords
  by_cases h1 : containsAnyKw (pyLower p) image_keywords
  · simp [h1]
  · rw [Bool.not_eq_true] at h1
    by_cases h2 : containsAnyKw (pyLower p) complex_keywords
    · simp [h1, h2]
    · rw [Bool.not_eq_true] at h2
      by_cases hw50 : pyWordCount p > 50
      · simp [h1, h2, hw50]
        omega
      · by_cases h3 : containsAnyKw (pyLower p) moderate_keywords
        · simp [h1, h2, h3, hw50]
          omega
        · rw [Bool.not_eq_true] at h3
          by_cases hw20 : pyWordCount p > 20
          · simp [h1, h2, h3, hw50, hw20]
            omega
          · simp [h1, h2, h3, hw50, hw20]
            omega

/-- C4: for a prompt classified `simple`, `create_plan` returns exactly
the single-step simple plan — independent of the planning-call oracle, so
the planning-capable generation call is never consulted — with the
general-purpose generation tool, the raw prompt, the default fast
provider `groq`, and the fixed low temperature 0.4. -/
theorem create_plan_simple_short_circuit (gen gen2 : Except String GenResult)
    (p : String) (h : classify_task_complexity_keywords p = TaskComplexity.simple) :
    create_plan gen p = _create_simple_plan p "simple" ∧
    create_plan gen p = create_plan gen2 p ∧
    (create_plan gen p).steps.length = 1 ∧
    (∀ s ∈ (create_plan gen p).steps,
      s.tool_name = "llm_generate" ∧
      dictGet s.args "prompt" = some (PyVal.str p) ∧
      dictGet s.args "provider" = some (PyVal.str "groq") ∧
      dictGet s.args "temperature" = some (PyVal.float (2/5))) := by
  have e : create_plan gen p = _create_simple_plan p "simple" := by
    unfold create_plan
    rw [h]
    rfl
  have e2 : create_plan gen2 p = _create_simple_plan p "simple" := by
    unfold create_plan
    rw [h]
    rfl
  refine ⟨e, e.trans e2.symm, ?_, ?_⟩
  · rw [e]
    rfl
  · rw [e]
    intro s hs
    simp only [_create_simple_plan, List.mem_singleton] at hs
    subst hs
    exact ⟨rfl, rfl, rfl, rfl⟩

/-- Witness for C4 at the four-word prompt of the specification example,
with two different planning oracles. -/
theorem create_plan_simple_short_circuit_witness :
    classify_task_complexity_keywords "What is the capital of France?" =
      TaskComplexity.simple ∧
    create_plan (Except.error "provider down") "What is the capital of France?" =
      _create_simple_plan "What is the capital of France?" "simple" ∧
    create_plan (Except.error "provider down") "What is the capital of France?" =
      create_plan (Except.ok ⟨"\x7b\x7d", 1, 1⟩) "What is the capital of France?" := by
  have hsimple : classify_task_complexity_keywords "What is the capital of France?" =
      TaskComplexity.simple := by decide
  have happ := create_plan_simple_short_circuit (Except.error "provider down")
    (Except.ok ⟨"\x7b\x7d", 1, 1⟩) "What is the capital of France?" hsimple
  exact ⟨hsimple, happ.1, happ.2.1⟩

/-- C5: for a prompt not classified `simple`, if the planning generation
call raises or its response text fails `_parse_plan_json` (direct parse
and first-brace-to-last-brace substring parse both fail), `create_plan`
still returns a plan — the single-step fallback plan on the
higher-capability provider/model at moderate temperature, with the
fallback reasoning string, and with `complexity` equal to the heuristic
classification. -/
theorem create_plan_fallback_on_planning_failure (gen : Except String GenResult)
    (p : String)
    (hns : classify_task_complexity_keywords p ≠ TaskComplexity.simple)
    (hfail : ∀ r, gen = Except.ok r → isErr (_parse_plan_json r.text) = true) :
    create_plan gen p =
      _create_fallback_plan p (classify_task_complexity_keywords p).val ∧
    (create_plan gen p).steps.length = 1 ∧
    (create_plan gen p).complexity = (classify_task_complexity_keywords p).val ∧
    (create_plan gen p).reasoning =
      "AI planning failed — falling back to direct LLM response." ∧
    (∀ s ∈ (create_plan gen p).steps,
      s.tool_name = "llm_generate" ∧
      dictGet s.args "prompt" = some (PyVal.str p) ∧
      dictGet s.args "provider" = some (PyVal.str "gemini") ∧
      dictGet s.args "model" = some (PyVal.str "gemini-2.5-flash") ∧
      dictGet s.args "temperature" = some (PyVal.float (1/2))) := by
  have key : create_plan gen p =
      _create_fallback_plan p (classify_task_complexity_keywords p).val := by
    unfold create_plan
    rw [if_neg hns]
    cases gen with
    | error e => rfl
    | ok r =>
      have hr := hfail r rfl
      unfold _create_ai_plan
      cases hp : _parse_plan_json r.text with
      | error e => simp [hp, bind, Except.bind]
      | ok v => rw [hp] at hr; simp [isErr] at hr
  refine ⟨key, ?_, ?_, ?_, ?_⟩
  · rw [key]; rfl
  · rw [key]; rfl
  · rw [key]; rfl
  · rw [key]
    intro s hs
    simp only [_create_fallback_plan, List.mem_singleton] at hs
    subst hs
    exact ⟨rfl, rfl, rfl, rfl, rfl⟩

/-- Witness for C5: a complex-classified prompt and a planning call that
returns unparseable text. -/
theorem create_plan_fallback_on_planning_failure_witness :
    classify_task_complexity_keywords "please analyze this codebase" ≠
      TaskComplexity.simple ∧
    (∀ r : GenResult, (Except.ok ⟨"not json", 0, 0⟩ : Except String GenResult) =
      Except.ok r → isErr (_parse_plan_json r.text) = true) ∧
    create_plan (Except.ok ⟨"not json", 0, 0⟩) "please analyze this codebase" =
      _create_fallback_plan "please analyze this codebase"
        (classify_task_complexity_keywords "please analyze this codebase").val ∧
    (create_plan (Except.ok ⟨"not json", 0, 0⟩) "please analyze this codebase").complexity =
      (classify_task_complexity_keywords "please analyze this codebase").val := by
  have h1 : classify_task_complexity_keywords "please analyze this codebase" ≠
      TaskComplexity.simple := by decide
  have h2 : ∀ r : GenResult, (Except.ok ⟨"not json", 0, 0⟩ : Except String GenResult) =
      Except.ok r → isErr (_parse_plan_json r.text) = true := by
    intro r h
    cases h
    decide
  have happ := create_plan_fallback_on_planning_failure
    (Except.ok ⟨"not json", 0, 0⟩) "please analyze this codebase" h1 h2
  exact ⟨h1, h2, happ.1, happ.2.2.1⟩

/-- Counterexample to C8: a non-simple prompt whose planning call returns
the valid JSON object with an empty steps list.  `_create_ai_plan` decodes
it successfully and returns it unchecked, so the plan the runner receives
has zero steps. -/
theorem create_plan_can_return_empty_plan :
    classify_task_complexity_keywords "please analyze this repository" ≠
      TaskComplexity.simple ∧
    (create_plan (Except.ok ⟨"\x7b\"steps\": []\x7d", 0, 0⟩)
      "please analyze this repository").steps = [] := by
  constructor
  · decide
  · rfl

/-- C8 amended: the plan returned by `create_plan` has at least one step
unless the planning response parses and decodes to a plan whose steps list
is itself empty — the simple path and every fallback path produce exactly
one step, but a successfully parsed empty steps list passes through
unchecked. -/
theorem create_plan_nonempty_unless_parsed_empty (gen : Except String GenResult)
    (p : String)
    (h : ∀ r plan, gen = Except.ok r →
      (do
        let d ← _parse_plan_json r.text
        ExecutionPlan.from_dict d) = Except.ok plan → plan.steps ≠ []) :
    (create_plan gen p).steps ≠ [] := by
  unfold create_plan
  by_cases hc : classify_task_complexity_keywords p = TaskComplexity.simple
  · rw [if_pos hc]
    simp [_create_simple_plan]
  · rw [if_neg hc]
    unfold _create_ai_plan
    cases gen with
    | error e => simp [_create_fallback_plan]
    | ok r =>
      cases hd : (do
          let d ← _parse_plan_json r.text
          ExecutionPlan.from_dict d : Except String ExecutionPlan) with
      | error e => simp [hd, _create_fallback_plan]
      | ok plan =>
        simp only [hd]
        exact h r plan rfl hd

/-- Witness for the amended C8: a raising planning call (so the
successful-parse hypothesis holds vacuously) on a one-word prompt. -/
theorem create_plan_nonempty_unless_parsed_empty_witness :
    (∀ r (plan : ExecutionPlan),
      (Except.error "planner down" : Except String GenResult) = Except.ok r →
      (do
        let d ← _parse_plan_json r.text
        ExecutionPlan.from_dict d) = Except.ok plan → plan.steps ≠ []) ∧
    (create_plan (Except.error "planner down") "hi").steps ≠ [] := by
  have hvac : ∀ r (plan : ExecutionPlan),
      (Except.error "planner down" : Except String GenResult) = Except.ok r →
      (do
        let d ← _parse_plan_json r.text
        ExecutionPlan.from_dict d) = Except.ok plan → plan.steps ≠ [] := by
    intro r plan hr
    exact absurd hr (by simp)
  exact ⟨hvac, create_plan_nonempty_unless_parsed_empty (Except.error "planner down")
    "hi" hvac⟩

theorem foldlMaxChoice : ∀ (xs : List Int) (a : Int),
    xs.foldl max a = a ∨ xs.foldl max a ∈ xs := by
  intro xs
  induction xs with
  | nil => intro a; left; rfl
  | cons x t ih =>
    intro a
    rcases ih (max a x) with h | h
    · rcases max_choice a x with hm | hm
      · left; rw [List.foldl_cons, h, hm]
      · right; rw [List.foldl_cons, h, hm]; exact List.mem_cons_self x t
    · right; exact List.mem_cons_of_mem x h

theorem leFoldlMaxInit : ∀ (xs : List Int) (a : Int), a ≤ xs.foldl max a := by
  intro xs
  induction xs with
  | nil => intro a; exact le_refl a
  | cons x t ih => intro a; exact le_trans (le_max_left a x) (ih (max a x))

theorem memLeFoldlMax : ∀ (xs : List Int) (a y : Int), y ∈ xs → y ≤ xs.foldl max a := by
  intro xs
  induction xs with
  | nil => intro a y h; cases h
  | cons x t ih =>
    intro a y h
    rcases List.mem_cons.mp h with rfl | h
    · exact le_trans (le_max_right a y) (leFoldlMaxInit t (max a y))
    · exact ih (max a x) y h

theorem listMaxIntMem : ∀ (l : List Int), l ≠ [] → listMaxInt l ∈ l := by
  intro l h
  cases l with
  | nil => exact absurd rfl h
  | cons x t =>
    rcases foldlMaxChoice t x with hc | hc
    · rw [listMaxInt, hc]; exact List.mem_cons_self x t
    · rw [listMaxInt]; exact List.mem_cons_of_mem x hc

theorem leListMaxInt : ∀ (l : List Int) (y : Int), y ∈ l → y ≤ listMaxInt l := by
  intro l y h
  cases l with
  | nil => cases h
  | cons x t =>
    rcases List.mem_cons.mp h with rfl | hm
    · rw [listMaxInt]; exact leFoldlMaxInit t y
    · rw [listMaxInt]; exact memLeFoldlMax t x y hm

theorem sortDescHead (l : List Int) (h : l ≠ []) :
    ∃ t, sortDescInt l = listMaxInt l :: t := by
  have hperm : List.Perm (sortDescInt l) l := List.perm_insertionSort _ l
  have hsorted : List.Sorted (fun a b : Int => b ≤ a) (sortDescInt l) :=
    List.sorted_insertionSort _ l
  cases hs : sortDescInt l with
  | nil =>
    exfalso
    have hlen := hperm.length_eq
    rw [hs] at hlen
    cases l with
    | nil => exact h rfl
    | cons a t => simp at hlen
  | cons hd t =>
    have hhd : hd ∈ l := hperm.subset (by rw [hs]; exact List.mem_cons_self hd t)
    have hmax_in : listMaxInt l ∈ hd :: t := by
      rw [← hs]
      exact hperm.symm.subset (listMaxIntMem l h)
    have h1 : listMaxInt l ≤ hd := by
      rcases List.mem_cons.mp hmax_in with he | hmem
      · exact le_of_eq he
      · rw [hs] at hsorted
        exact List.rel_of_sorted_cons hsorted _ hmem
    have h2 : hd ≤ listMaxInt l := leListMaxInt l hd hhd
    refine ⟨t, ?_⟩
    rw [le_antisymm h2 h1]

theorem compile_eq_spec : ∀ outputs : List (Int × String),
    compile_response outputs = spec_compile_response outputs := by
  intro outputs
  cases outputs with
  | nil => rfl
  | cons q rest =>
    unfold compile_response spec_compile_response
    simp only [List.map_cons]
    obtain ⟨t, ht⟩ := sortDescHead (q.1 :: rest.map (fun p => p.1)) (by simp)
    by_cases he : pyStartsWith
        (lookupD (q :: rest) (listMaxInt (q.1 :: rest.map (fun p => p.1))) "") "[ERROR]"
    · rw [if_pos he]
    · rw [Bool.not_eq_true] at he
      rw [if_neg (by rw [he]; exact Bool.false_ne_true), ht,
        List.find?_cons_of_pos _ (by simp [he])]

/-- C2: response compilation returns the output of the highest step id,
falling back in descending id order past error-marked outputs
(`spec_compile_response` states exactly that search), with the fixed
generic failure message when every output is error-marked and the fixed
could-not-generate message for the empty mapping; in particular the three
concrete examples of the specification. -/
theorem compile_response_matches_spec :
    (∀ step_outputs : List (Int × String),
      compile_response step_outputs = spec_compile_response step_outputs) ∧
    compile_response [(0, "[ERROR] boom"), (1, "good answer")] = "good answer" ∧
    compile_response [(0, "[ERROR] boom")] = genericAllError ∧
    compile_response [] = genericNoSteps :=
  ⟨compile_eq_spec, by rfl, by rfl, by rfl⟩

/-- C10: response compilation classifies outputs as errors purely by the
`"[ERROR]"` string prefix (step success flags are not even inputs of
`compile_response`): whenever the highest step id's output carries the
prefix, the compiled response never carries it — it is either another
step's prefix-free output or the fixed generic failure message — so a
prefix-carrying output is skipped even if its step succeeded. -/
theorem compile_response_skips_error_prefix (step_outputs : List (Int × String))
    (hne : step_outputs ≠ [])
    (herr : pyStartsWith
      (lookupD step_outputs (listMaxInt (step_outputs.map (fun p => p.1))) "")
      "[ERROR]" = true) :
    pyStartsWith (compile_response step_outputs) "[ERROR]" = false ∧
    (compile_response step_outputs = genericAllError ∨
      ∃ sid ∈ step_outputs.map (fun p => p.1),
        compile_response step_outputs = lookupD step_outputs sid "" ∧
        pyStartsWith (lookupD step_outputs sid "") "[ERROR]" = false) := by
  cases step_outputs with
  | nil => exact absurd rfl hne
  | cons q rest =>
    unfold compile_response
    simp only [List.map_cons] at herr ⊢
    rw [if_pos herr]
    cases hf : (sortDescInt (q.1 :: rest.map (fun p => p.1))).find?
        (fun sid => !(pyStartsWith (lookupD (q :: rest) sid "") "[ERROR]")) with
    | none =>
      constructor
      · show pyStartsWith genericAllError "[ERROR]" = false
        decide
      · exact Or.inl rfl
    | some sid =>
      have hpred := List.find?_some hf
      have hmem : sid ∈ sortDescInt (q.1 :: rest.map (fun p => p.1)) :=
        List.mem_of_find?_eq_some hf
      have hmem2 : sid ∈ q.1 :: rest.map (fun p => p.1) :=
        (List.perm_insertionSort _ _).subset hmem
      simp only [Bool.not_eq_true'] at hpred
      exact ⟨hpred, Or.inr ⟨sid, hmem2, rfl, hpred⟩⟩

/-- Witness for C10: the highest step id's output carries the error prefix
while a lower one does not; the compiled response is the lower output. -/
theorem compile_response_skips_error_prefix_witness :
    ([(0, "good"), (1, "[ERROR] fake")] : List (Int × String)) ≠ [] ∧
    pyStartsWith
      (lookupD [(0, "good"), (1, "[ERROR] fake")]
        (listMaxInt ([(0, "good"), (1, "[ERROR] fake")].map (fun p => p.1))) "")
      "[ERROR]" = true ∧
    pyStartsWith (compile_response [(0, "good"), (1, "[ERROR] fake")]) "[ERROR]" = false := by
  have h := compile_response_skips_error_prefix [(0, "good"), (1, "[ERROR] fake")]
    (by simp) (by rfl)
  exact ⟨by simp, by rfl, h.1⟩

theorem runSteps_tokens_invariant (oracle : ExecOracle) (retry : Bool) :
    ∀ (steps : List PlanStep) (st : RunState),
      (runSteps oracle retry steps st).total_tokens +
        (st.step_results.map (fun r => r.tokens_used)).sum =
      st.total_tokens +
        ((runSteps oracle retry steps st).step_results.map (fun r => r.tokens_used)).sum := by
  intro steps
  induction steps with
  | nil => intro st; simp [runSteps]
  | cons s t ih =>
    intro st
    have h1 : runSteps oracle retry (s :: t) st =
        runSteps oracle retry t (runStep oracle retry st s) := rfl
    rw [h1]
    have h2 := ih (runStep oracle retry st s)
    have h3 : (runStep oracle retry st s).total_tokens =
        st.total_tokens +
          (_execute_with_retry oracle retry st.calls s.tool_name
            (_resolve_args s.args st.step_outputs)).1.tokens_used := rfl
    have h4 : (runStep oracle retry st s).step_results.map (fun r => r.tokens_used) =
        st.step_results.map (fun r => r.tokens_used) ++
          [(_execute_with_retry oracle retry st.calls s.tool_name
            (_resolve_args s.args st.step_outputs)).1.tokens_used] := by
      simp [runStep]
    rw [h3, h4] at h2
    simp only [List.sum_append, List.sum_cons, List.sum_nil] at h2
    omega

/-- C7: the `total_tokens` of a run equals the planning-token count stored
in the plan metadata plus the sum of `tokens_used` over the `ToolResult`
recorded for every executed step, failed steps included (their recorded
`tokens_used` participates in the sum exactly as stored). -/
theorem agent_run_total_tokens (oracle : ExecOracle) (retry : Bool)
    (max_steps : Nat) (plan : ExecutionPlan) :
    (AgentRunner.run oracle retry max_steps plan).total_tokens =
      planningTokens plan +
        ((AgentRunner.run oracle retry max_steps plan).step_results.map
          (fun r => r.tokens_used)).sum := by
  have h := runSteps_tokens_invariant oracle retry (plan.steps.take max_steps)
    { calls := 0, step_outputs := [], total_tokens := planningTokens plan,
      step_results := [] }
  simp only [List.map_nil, List.sum_nil, Nat.add_zero] at h
  exact h

theorem findMapSet {α β : Type} [BEq α] [LawfulBEq α] :
    ∀ (m : List (α × β)) (k : α) (v : β), m.any (fun p => p.1 == k) = true →
      dictGet (m.map (fun p => if p.1 == k then (k, v) else p)) k = some v := by
  intro m k v
  induction m with
  | nil => intro h; simp at h
  | cons q t ih =>
    intro h
    rw [List.map_cons]
    by_cases hq : q.1 == k
    · rw [if_pos hq]
      unfold dictGet
      rw [List.find?_cons_of_pos _ (by simp)]
      rfl
    · rw [if_neg hq]
      have ht : t.any (fun p => p.1 == k) = true := by
        simp only [List.any_cons, hq, Bool.false_or] at h
        exact h
      unfold dictGet
      rw [List.find?_cons_of_neg _ (by simp [hq])]
      exact ih ht

theorem findAppendNew {α β : Type} [BEq α] [LawfulBEq α] :
    ∀ (m : List (α × β)) (k : α) (v : β), m.any (fun p => p.1 == k) = false →
      dictGet (m ++ [(k, v)]) k = some v := by
  intro m k v
  induction m with
  | nil => intro _; unfold dictGet; rw [List.nil_append, List.find?_cons_of_pos _ (by simp)]; rfl
  | cons q t ih =>
    intro h
    simp only [List.any_cons, Bool.or_eq_false_iff] at h
    rw [List.cons_append]
    unfold dictGet
    rw [List.find?_cons_of_neg _ (by simp [h.1])]
    exact ih h.2

theorem dictGet_dictSet_self {α β : Type} [BEq α] [LawfulBEq α]
    (m : List (α × β)) (k : α) (v : β) : dictGet (dictSet m k v) k = some v := by
  unfold dictSet
  by_cases h : m.any (fun p => p.1 == k)
  · rw [if_pos h]
    exact findMapSet m k v h
  · rw [if_neg h]
    exact findAppendNew m k v (Bool.not_eq_true _ |>.mp h)

theorem isPrefixList_self_append : ∀ (p x : List Char), isPrefixList p (p ++ x) = true := by
  intro p
  induction p with
  | nil => intro x; rfl
  | cons c cs ih => intro x; simp [isPrefixList, ih]

theorem runSteps_record_count (oracle : ExecOracle) (retry : Bool) :
    ∀ (steps : List PlanStep) (st : RunState),
      (runSteps oracle retry steps st).step_results.length =
        st.step_results.length + steps.length := by
  intro steps
  induction steps with
  | nil => intro st; simp [runSteps]
  | cons s t ih =>
    intro st
    have h1 : runSteps oracle retry (s :: t) st =
        runSteps oracle retry t (runStep oracle retry st s) := rfl
    rw [h1, ih]
    have : (runStep oracle retry st s).step_results.length =
        st.step_results.length + 1 := by simp [runStep]
    rw [this]
    simp
    omega

/-- C9: the step loop records exactly one result per step and always
continues to the next step (no abort path exists), and a step whose kept
(possibly retried) result is unsuccessful with a truthy error message has
exactly the marker `"[ERROR] " ++ message` recorded as its step output,
so the stored output begins with the literal `"[ERROR] "`. -/
theorem failed_step_records_marker_and_loop_continues (oracle : ExecOracle)
    (retry : Bool) (steps : List PlanStep) (st : RunState) (step : PlanStep)
    (msg : String)
    (hfail : (_execute_with_retry oracle retry st.calls step.tool_name
      (_resolve_args step.args st.step_outputs)).1.success = false)
    (herr : (_execute_with_retry oracle retry st.calls step.tool_name
      (_resolve_args step.args st.step_outputs)).1.error = some msg)
    (hmnz : msg ≠ "") :
    (runSteps oracle retry steps st).step_results.length =
      st.step_results.length + steps.length ∧
    lookupD (runStep oracle retry st step).step_outputs step.step_id "" =
      "[ERROR] " ++ msg ∧
    pyStartsWith ("[ERROR] " ++ msg) "[ERROR] " = true := by
  refine ⟨runSteps_record_count oracle retry steps st, ?_, ?_⟩
  · have hout : stepOutputText (_execute_with_retry oracle retry st.calls
        step.tool_name (_resolve_args step.args st.step_outputs)).1 =
        "[ERROR] " ++ msg := by
      unfold stepOutputText
      rw [hfail, herr]
      simp [truthyErr, hmnz]
    show lookupD (dictSet st.step_outputs step.step_id
        (stepOutputText (_execute_with_retry oracle retry st.calls step.tool_name
          (_resolve_args step.args st.step_outputs)).1)) step.step_id "" =
      "[ERROR] " ++ msg
    rw [hout]
    unfold lookupD dictGetD
    rw [dictGet_dictSet_self]
    rfl
  · show isPrefixList ("[ERROR] ".data) (("[ERROR] " ++ msg).data) = true
    rw [String.data_append]
    exact isPrefixList_self_append _ _

/-- Witness for C9: an oracle whose tool always fails with message `boom`;
two steps are both recorded, and the failed step stores the marker. -/
theorem failed_step_records_marker_and_loop_continues_witness :
    ((_execute_with_retry (fun _ _ _ => { success := false, error := some "boom" })
      true 0 "llm_generate"
      (_resolve_args [] [])).1.success = false) ∧
    ((_execute_with_retry (fun _ _ _ => { success := false, error := some "boom" })
      true 0 "llm_generate"
      (_resolve_args [] [])).1.error = some "boom") ∧
    ("boom" ≠ "") ∧
    ((runSteps (fun _ _ _ => { success := false, error := some "boom" }) true
      [{ step_id := 0, tool_name := "llm_generate" },
       { step_id := 1, tool_name := "llm_generate" }]
      { calls := 0, step_outputs := [], total_tokens := 0,
        step_results := [] }).step_results.length = 0 + 2) ∧
    lookupD (runStep (fun _ _ _ => { success := false, error := some "boom" }) true
      { calls := 0, step_outputs := [], total_tokens := 0, step_results := [] }
      { step_id := 0, tool_name := "llm_generate" }).step_outputs 0 "" =
      "[ERROR] " ++ "boom" := by
  have h := failed_step_records_marker_and_loop_continues
    (fun _ _ _ => { success := false, error := some "boom" }) true
    [{ step_id := 0, tool_name := "llm_generate" },
     { step_id := 1, tool_name := "llm_generate" }]
    { calls := 0, step_outputs := [], total_tokens := 0, step_results := [] }
    { step_id := 0, tool_name := "llm_generate" } "boom" rfl rfl (by decide)
  exact ⟨rfl, rfl, by decide, h.1, h.2.1⟩

theorem digitC_isDigit (m : Nat) : (digitC m).isDigit = true := by
  unfold digitC
  split <;> decide

theorem digitVal_digitC (m : Nat) (h : m < 10) : (digitC m).toNat - 48 = m := by
  interval_cases m <;> rfl

theorem natDigits_ne_nil (n : Nat) : natDigits n ≠ [] := by
  unfold natDigits
  split <;> simp

theorem natDigits_all_isDigit (n : Nat) : ∀ c ∈ natDigits n, c.isDigit = true := by
  induction n using Nat.strong_induction_on with
  | _ n ih =>
    unfold natDigits
    split
    · intro c hc
      simp only [List.mem_singleton] at hc
      subst hc
      exact digitC_isDigit n
    · rename_i h
      intro c hc
      rcases List.mem_append.mp hc with h1 | h2
      · exact ih (n / 10) (Nat.div_lt_self (by omega) (by omega)) c h1
      · simp only [List.mem_singleton] at h2
        subst h2
        exact digitC_isDigit (n % 10)

theorem digitsToNat_natDigits (n : Nat) : digitsToNat (natDigits n) = n := by
  induction n using Nat.strong_induction_on with
  | _ n ih =>
    unfold natDigits
    split
    · rename_i h
      unfold digitsToNat
      simp only [List.foldl_cons, List.foldl_nil, Nat.zero_mul, Nat.zero_add]
      exact digitVal_digitC n h
    · rename_i h
      have hlt : n / 10 < n := Nat.div_lt_self (by omega) (by omega)
      have ihq := ih (n / 10) hlt
      unfold digitsToNat at ihq ⊢
      rw [List.foldl_append, ihq]
      simp only [List.foldl_cons, List.foldl_nil]
      have hv := digitVal_digitC (n % 10) (Nat.mod_lt n (by omega))
      omega

theorem stripPre_self_append : ∀ (p x : List Char), stripPre p (p ++ x) = some x := by
  intro p
  induction p with
  | nil => intro x; rfl
  | cons c cs ih =>
    intro x
    simp only [List.cons_append, stripPre, beq_self_eq_true, if_true]
    exact ih x

theorem takeWhile_append_all {p : Char → Bool} :
    ∀ (l r : List Char), (∀ c ∈ l, p c = true) →
      (l ++ r).takeWhile p = l ++ r.takeWhile p := by
  intro l
  induction l with
  | nil => intro r _; rfl
  | cons c t ih =>
    intro r h
    have hc : p c = true := h c (List.mem_cons_self c t)
    simp only [List.cons_append, List.takeWhile_cons, hc, if_true]
    rw [ih r (fun d hd => h d (List.mem_cons_of_mem c hd))]

theorem dropWhile_append_all {p : Char → Bool} :
    ∀ (l r : List Char), (∀ c ∈ l, p c = true) →
      (l ++ r).dropWhile p = r.dropWhile p := by
  intro l
  induction l with
  | nil => intro r _; rfl
  | cons c t ih =>
    intro r h
    have hc : p c = true := h c (List.mem_cons_self c t)
    simp only [List.cons_append, List.dropWhile_cons, hc, if_true]
    exact ih r (fun d hd => h d (List.mem_cons_of_mem c hd))

theorem parseStepRef_ref (n : Nat) (cs : List Char) :
    parseStepRef (refHead ++ (natDigits n ++ (refTail ++ cs))) = some (n, cs) := by
  unfold parseStepRef
  rw [stripPre_self_append]
  simp only []
  have hdig := natDigits_all_isDigit n
  have htw : (natDigits n ++ (refTail ++ cs)).takeWhile Char.isDigit = natDigits n := by
    rw [takeWhile_append_all _ _ hdig]
    have : (refTail ++ cs).takeWhile Char.isDigit = [] := by
      simp [refTail, List.takeWhile_cons]
    rw [this, List.append_nil]
  have hdw : (natDigits n ++ (refTail ++ cs)).dropWhile Char.isDigit = refTail ++ cs := by
    rw [dropWhile_append_all _ _ hdig]
    simp [refTail, List.dropWhile_cons]
  rw [htw, hdw]
  rw [if_neg (by simp [natDigits_ne_nil n])]
  rw [stripPre_self_append]
  rw [digitsToNat_natDigits]

theorem parseStepRef_none_of_head (c : Char) (l : List Char) (h : ¬ c = '\x7b') :
    parseStepRef (c :: l) = Option.none := by
  unfold parseStepRef
  have hs : stripPre refHead (c :: l) = Option.none := by
    show stripPre ('\x7b' :: ['s', 't', 'e', 'p', '_']) (c :: l) = Option.none
    simp only [stripPre]
    rw [if_neg (by simp; intro he; exact h he.symm)]
  rw [hs]

theorem substChars_nil (step_outputs : List (Int × String)) :
    substChars step_outputs [] = [] := by
  rw [substChars]

theorem substChars_cons_none (step_outputs : List (Int × String)) (c : Char)
    (rest : List Char) (h : parseStepRef (c :: rest) = Option.none) :
    substChars step_outputs (c :: rest) = c :: substChars step_outputs rest := by
  rw [substChars]
  split
  · rename_i nr heq
    rw [h] at heq
    exact absurd heq (by simp)
  · rfl

theorem substChars_cons_some (step_outputs : List (Int × String)) (c : Char)
    (rest : List Char) (n : Nat) (rem : List Char)
    (h : parseStepRef (c :: rest) = some (n, rem)) :
    substChars step_outputs (c :: rest) =
      (refReplacement step_outputs n).data ++ substChars step_outputs rem := by
  rw [substChars]
  split
  · rename_i nr heq
    rw [h] at heq
    have : nr = (n, rem) := by
      injection heq with h2
      exact h2.symm
    subst this
    rfl
  · rename_i heq
    rw [h] at heq
    exact absurd heq (by simp)

theorem substChars_lit (step_outputs : List (Int × String)) :
    ∀ (l cs : List Char), (∀ c ∈ l, ¬ c = '\x7b') →
      substChars step_outputs (l ++ cs) = l ++ substChars step_outputs cs := by
  intro l
  induction l with
  | nil => intro cs _; rfl
  | cons c t ih =>
    intro cs h
    have hc := h c (List.mem_cons_self c t)
    rw [List.cons_append,
      substChars_cons_none _ _ _ (parseStepRef_none_of_head c (t ++ cs) hc),
      ih cs (fun d hd => h d (List.mem_cons_of_mem c hd))]
    rfl

theorem substChars_render (step_outputs : List (Int × String)) :
    ∀ ts : List Tpl, ts.all litOkB = true →
      substChars step_outputs (Tpl.renderChars ts) = Tpl.expandChars step_outputs ts := by
  intro ts
  induction ts with
  | nil =>
    intro _
    rw [Tpl.renderChars, Tpl.expandChars, substChars_nil]
  | cons t ts ih =>
    intro h
    simp only [List.all_cons, Bool.and_eq_true] at h
    cases t with
    | lit s =>
      have hs : ∀ c ∈ s.data, ¬ c = '\x7b' := by
        intro c hc
        have h1 := h.1
        simp only [litOkB, List.all_eq_true] at h1
        have h2 := h1 c hc
        simpa using h2
      rw [Tpl.renderChars, Tpl.expandChars, substChars_lit _ _ _ hs, ih h.2]
    | ref n =>
      have hp : parseStepRef ('\x7b' :: (['s', 't', 'e', 'p', '_'] ++
          (natDigits n ++ (refTail ++ Tpl.renderChars ts)))) =
          some (n, Tpl.renderChars ts) := parseStepRef_ref n (Tpl.renderChars ts)
      show substChars step_outputs ('\x7b' :: (['s', 't', 'e', 'p', '_'] ++
          (natDigits n ++ (refTail ++ Tpl.renderChars ts)))) =
        Tpl.expandChars step_outputs (Tpl.ref n :: ts)
      rw [substChars_cons_some _ _ _ _ _ hp, ih h.2, Tpl.expandChars]
      congr 1
      unfold refReplacement lookupD dictGetD dictGet
      cases (step_outputs.find? (fun p => p.1 == Int.ofNat n)) <;> rfl

/-- C3: argument resolution substitutes templates exactly — on any string
assembled from brace-free literal chunks and step references, every
reference to step `n` is replaced by the recorded output of step `n` when
one exists and by the visible unavailability placeholder otherwise
(`Tpl.expand` states that specification) — the function is total (never
raises), and non-string argument values pass through `_resolve_args`
unchanged. -/
theorem resolve_args_template_substitution (step_outputs : List (Int × String))
    (ts : List Tpl) (hts : ts.all litOkB = true) (args : Args) :
    resolve_template step_outputs (Tpl.render ts) = Tpl.expand step_outputs ts ∧
    List.Forall₂ (fun kv kv' : String × PyVal =>
      kv'.1 = kv.1 ∧
      (∀ s, kv.2 = PyVal.str s → kv'.2 = PyVal.str (resolve_template step_outputs s)) ∧
      ((∀ s, kv.2 ≠ PyVal.str s) → kv' = kv))
      args (_resolve_args args step_outputs) := by
  constructor
  · unfold resolve_template Tpl.render Tpl.expand
    rw [show (String.mk (Tpl.renderChars ts)).data = Tpl.renderChars ts from rfl]
    rw [substChars_render step_outputs ts hts]
  · induction args with
    | nil => exact List.Forall₂.nil
    | cons kv t ih =>
      have hsplit : _resolve_args (kv :: t) step_outputs =
          (match kv.2 with
            | PyVal.str s => (kv.1, PyVal.str (resolve_template step_outputs s))
            | v => (kv.1, v)) :: _resolve_args t step_outputs := rfl
      rw [hsplit]
      refine List.Forall₂.cons ?_ ih
      rcases kv with ⟨k, v⟩
      cases v with
      | str s =>
        refine ⟨rfl, ?_, ?_⟩
        · intro s2 hs2
          injection hs2 with h3
          rw [h3]
        · intro hno
          exact absurd rfl (hno s)
      | none => exact ⟨rfl, fun s2 hs2 => absurd hs2 (by simp), fun _ => rfl⟩
      | bool b => exact ⟨rfl, fun s2 hs2 => absurd hs2 (by simp), fun _ => rfl⟩
      | int i => exact ⟨rfl, fun s2 hs2 => absurd hs2 (by simp), fun _ => rfl⟩
      | float q => exact ⟨rfl, fun s2 hs2 => absurd hs2 (by simp), fun _ => rfl⟩
      | list xs => exact ⟨rfl, fun s2 hs2 => absurd hs2 (by simp), fun _ => rfl⟩
      | dict fs => exact ⟨rfl, fun s2 hs2 => absurd hs2 (by simp), fun _ => rfl⟩

/-- Witness for C3: a template referencing step 2 resolves to the recorded
output `X`; with no recorded output it resolves to the placeholder; a
non-string argument passes through unchanged. -/
theorem resolve_args_template_substitution_witness :
    ([Tpl.lit "answer: ", Tpl.ref 2].all litOkB = true) ∧
    resolve_template [((2 : Int), "X")] (Tpl.render [Tpl.lit "answer: ", Tpl.ref 2]) =
      Tpl.expand [((2 : Int), "X")] [Tpl.lit "answer: ", Tpl.ref 2] ∧
    Tpl.expand [((2 : Int), "X")] [Tpl.lit "answer: ", Tpl.ref 2] = "answer: X" ∧
    Tpl.expand [] [Tpl.ref 2] = "[step 2 output unavailable]" ∧
    List.Forall₂ (fun kv kv' : String × PyVal =>
      kv'.1 = kv.1 ∧
      (∀ s, kv.2 = PyVal.str s → kv'.2 = PyVal.str (resolve_template [((2 : Int), "X")] s)) ∧
      ((∀ s, kv.2 ≠ PyVal.str s) → kv' = kv))
      [("temperature", PyVal.float (2/5))]
      (_resolve_args [("temperature", PyVal.float (2/5))] [((2 : Int), "X")]) := by
  have h := resolve_args_template_substitution [((2 : Int), "X")]
    [Tpl.lit "answer: ", Tpl.ref 2] (by decide)
    [("temperature", PyVal.float (2/5))]
  exact ⟨by decide, h.1, by decide, by decide, h.2⟩
